import Mathlib

/-!
Shallow embedding of the real-time speech session core of the repository
(`vbaigame-speech`): the audio engine (`audio_manager.py`), the realtime
protocol client (`realtime_client.py`) and the frame-accumulation loop of the
dialogue orchestrator (`enhanced_dialogue_system.py`).

Python floats are modelled as exact rationals (`ℚ`); the decimal constants of
the source (0.5, 1024/24000, 0.01, …) and all comparisons they feed are exact
at the granularity the theorems use.  NumPy `astype(np.int16)` on a float
truncates toward zero; it is modelled by `ratTrunc` plus a two's-complement
wrap `toInt16` for the (unreachable in-range) overflow case.
-/

namespace VbaiSpeech

/-- Truncation toward zero of a rational, the rounding of NumPy
`astype(np.int16)` applied to a float value. -/
def ratTrunc (q : ℚ) : ℤ :=
  if 0 ≤ q then ⌊q⌋ else -⌊-q⌋

/-- Two's-complement wrap into the int16 range, the representation change of
`astype(np.int16)` once the value is an integer. -/
def toInt16 (z : ℤ) : ℤ :=
  (z + 32768) % 65536 - 32768

/-! ### AudioManager: volume control (`audio_manager.py`, `set_volumes`) -/

/-- Volume fields of `AudioManager` (`self.input_volume`, `self.output_volume`,
both initialised to 1.0). -/
structure Volumes where
  input_volume : ℚ
  output_volume : ℚ
deriving DecidableEq

/-- Initial volumes set in `AudioManager.__init__`. -/
def initVolumes : Volumes := ⟨1, 1⟩

/-- Embedding of `AudioManager.set_volumes`: each supplied value is stored as
`max(0.0, min(1.0, v))`; a `None` argument leaves the field unchanged. -/
def set_volumes (st : Volumes) (input_volume output_volume : Option ℚ) : Volumes :=
  let st1 :=
    match input_volume with
    | some v => { st with input_volume := max 0 (min 1 v) }
    | none => st
  match output_volume with
  | some v => { st1 with output_volume := max 0 (min 1 v) }
  | none => st1

/-! ### AudioManager: stop operations (`stop_recording`, `stop_playback`) -/

/-- Control-flag state of `AudioManager` relevant to `stop_recording` and
`stop_playback`; the `Bool` stream/thread fields model whether the
corresponding optional resource (`input_stream`, `output_thread`) is present. -/
structure AMState where
  is_recording : Bool
  input_stream : Bool
  is_playing : Bool
  should_stop : Bool
  output_thread : Bool
deriving DecidableEq

/-- Embedding of `AudioManager.stop_recording`: early-returns when not
recording, otherwise clears `is_recording` and closes/drops the input
stream. -/
def stop_recording (st : AMState) : AMState :=
  if st.is_recording = false then st
  else { st with is_recording := false, input_stream := false }

/-- Embedding of `AudioManager.stop_playback`: early-returns when not playing,
otherwise clears `is_playing`, sets `should_stop` and joins/drops the output
thread. -/
def stop_playback (st : AMState) : AMState :=
  if st.is_playing = false then st
  else { st with is_playing := false, should_stop := true, output_thread := false }

/-! ### AudioManager: capture callback (`start_recording`'s `audio_callback`) -/

/-- One sample of the capture callback: `indata * self.input_volume`, then
`(audio_data * 32767).astype(np.int16)`. -/
def captureSample (vol x : ℚ) : ℤ :=
  toInt16 (ratTrunc (vol * x * 32767))

/-- Whole-frame PCM16 conversion of the capture callback. -/
def captureFrame (vol : ℚ) (frame : List ℚ) : List ℤ :=
  frame.map (captureSample vol)

/-- Sum of squares of the int16 samples, the numerator of the RMS mean. -/
def sumSquares (l : List ℤ) : ℤ :=
  (l.map (fun z => z * z)).sum

/-- Voice-activity check of the capture callback.  The source compares
`sqrt(mean(pcm²)) > vad_threshold`; for a nonnegative threshold this holds iff
`sum(pcm²) > threshold² * n`, which is the decidable comparison used here. -/
def vadCheck (thr : ℚ) (pcm : List ℤ) : Bool :=
  decide ((thr ^ 2 * pcm.length : ℚ) < (sumSquares pcm : ℚ))

/-- Result of one invocation of the capture `audio_callback`: the PCM frame it
produced, whether the VAD timestamp was refreshed, the input queue after the
unconditional `self.input_queue.put`, and the argument handed to
`self.on_audio_input`. -/
structure CaptureResult where
  pcm : List ℤ
  vadTriggered : Bool
  queueAfter : List (List ℤ)
  callbackArg : List ℤ
deriving DecidableEq

/-- Embedding of the capture `audio_callback` in `start_recording`: scale by
the input volume, convert to PCM16, run the VAD check, append the frame to the
input queue (a plain unbounded `queue.Queue().put`), and pass the same frame
to the registered input callback. -/
def capture_audio_callback (vol thr : ℚ) (q : List (List ℤ)) (indata : List ℚ) :
    CaptureResult :=
  let pcm := captureFrame vol indata
  { pcm := pcm
    vadTriggered := vadCheck thr pcm
    queueAfter := q ++ [pcm]
    callbackArg := pcm }

/-- Input-queue contents after a sequence of capture callbacks starting from an
empty queue (`AudioManager.__init__` creates `queue.Queue()` empty). -/
def input_queue_after (vol thr : ℚ) (frames : List (List ℚ)) : List (List ℤ) :=
  frames.foldl (fun q f => (capture_audio_callback vol thr q f).queueAfter) []

/-! ### AudioManager: playback callback (`start_playback`'s worker callback) -/

/-- The pull loop of the playback `audio_callback`:
`while not self.output_queue.empty() and len(buffer) < frames:` pop a chunk and
concatenate it onto the local buffer. -/
def pullChunks (frames : ℕ) : List (List ℤ) → List ℤ → List ℤ × List (List ℤ)
  | [], buf => (buf, [])
  | c :: q, buf =>
    if buf.length < frames then pullChunks frames q (buf ++ c)
    else (buf, c :: q)

/-- Shared state of the playback worker: the local `buffer` of int16 samples
and the `output_queue` of pending chunks. -/
structure PlaybackState where
  buffer : List ℤ
  output_queue : List (List ℤ)
deriving DecidableEq

/-- Result of one playback callback: the float frame written to `outdata`,
and the buffer/queue left behind. -/
structure PlaybackOut where
  outdata : List ℚ
  buffer : List ℤ
  queue : List (List ℤ)
deriving DecidableEq

/-- Embedding of the playback `audio_callback`: pull chunks while the buffer is
short of `frames`; if at least `frames` samples are buffered, emit them scaled
by `1/32767` and the output volume and drop them from the buffer; otherwise
`outdata.fill(0)` — the entire frame is silence and the buffer is kept. -/
def playback_audio_callback (outVol : ℚ) (frames : ℕ) (st : PlaybackState) :
    PlaybackOut :=
  let pulled := pullChunks frames st.output_queue st.buffer
  if frames ≤ pulled.1.length then
    { outdata := (pulled.1.take frames).map (fun z => (z : ℚ) / 32767 * outVol)
      buffer := pulled.1.drop frames
      queue := pulled.2 }
  else
    { outdata := List.replicate frames 0
      buffer := pulled.1
      queue := pulled.2 }

/-! ### DialogueOrchestrator: frame-accumulation loop
(`enhanced_dialogue_system.py`, `_process_audio_input`) -/

/-- Outbound network calls the accumulation loop can make on the realtime
client: `send_audio_chunk(bytes)` and `commit_audio_buffer()`. -/
inductive NetEvent where
  | sendChunk (payload : List ℤ)
  | commitBuffer
deriving DecidableEq

/-- Per-frame duration used by `_process_audio_input`:
`chunk_duration = chunk_size / sample_rate = 1024 / 24000` seconds. -/
def chunk_duration : ℚ := 1024 / 24000

/-- Commit threshold of `_process_audio_input`: `min_commit_duration = 0.5`. -/
def min_commit_duration : ℚ := 1 / 2

/-- NumPy `np.clip(x, -32768, 32767)`. -/
def clipSample (x : ℚ) : ℚ := max (-32768) (min 32767 x)

/-- The loop's PCM conversion before sending:
`np.clip(audio_to_send, -32768, 32767).astype(np.int16)`. -/
def toPCM16 (xs : List ℚ) : List ℤ :=
  xs.map (fun x => ratTrunc (clipSample x))

/-- State of the accumulation loop: `accumulated_audio`,
`accumulated_duration`, and the trace of network calls issued so far. -/
structure AccState where
  accumulated_audio : List (List ℚ)
  accumulated_duration : ℚ
  events : List NetEvent
deriving DecidableEq

/-- Loop state at thread start: `accumulated_audio = []`,
`accumulated_duration = 0.0`, nothing sent. -/
def initAcc : AccState := ⟨[], 0, []⟩

/-- One iteration of `_process_audio_input` in which a frame was obtained from
`audio_buffer`: append it, add `chunk_duration`; once the duration reaches
`min_commit_duration`, concatenate the buffer — an empty concatenation skips
the network call and resets, otherwise the loop sends the PCM16 chunk,
commits, and resets. The run is modelled with the realtime client connected,
as `_start_speech_mode` guarantees before spawning the loop. -/
def processFrame (st : AccState) (frame : List ℚ) : AccState :=
  let acc := st.accumulated_audio ++ [frame]
  let dur := st.accumulated_duration + chunk_duration
  if min_commit_duration ≤ dur then
    let audio_to_send := acc.flatten
    if audio_to_send.length = 0 then
      { accumulated_audio := [], accumulated_duration := 0, events := st.events }
    else
      { accumulated_audio := []
        accumulated_duration := 0
        events := st.events ++ [NetEvent.sendChunk (toPCM16 audio_to_send), NetEvent.commitBuffer] }
  else
    { accumulated_audio := acc, accumulated_duration := dur, events := st.events }

/-- The accumulation loop run over a finite sequence of frames popped from
`audio_buffer`, in arrival order. -/
def runAcc (frames : List (List ℚ)) (st : AccState) : AccState :=
  frames.foldl processFrame st

/-- Recogniser for commit events. -/
def isCommit : NetEvent → Bool
  | NetEvent.commitBuffer => true
  | NetEvent.sendChunk _ => false

/-- Number of `commit_audio_buffer()` calls in a trace. -/
def commitCount (ev : List NetEvent) : ℕ :=
  ev.countP isCommit

/-! ### RealtimeProtocolSession: error-event handling
(`realtime_client.py`, `_handle_message`, `"error"` branch) -/

/-- Python `str.lower()` on the character list of an ASCII message. -/
def pyLower (s : List Char) : List Char :=
  s.map Char.toLower

/-- Whether `pat` is a prefix of the second list (Python slice comparison). -/
def listIsPrefOf : List Char → List Char → Bool
  | [], _ => true
  | _ :: _, [] => false
  | a :: as, b :: bs => a == b && listIsPrefOf as bs

/-- Python substring containment `pat in s`. -/
def listContainsSub (pat : List Char) : List Char → Bool
  | [] => listIsPrefOf pat []
  | c :: rest => listIsPrefOf pat (c :: rest) || listContainsSub pat rest

/-- The benign-cancellation marker matched by `_handle_message`. -/
def benignMarker : List Char := "no active response found".data

/-- The client state touched by the `"error"` branch: the two pending-response
flags and the trace of invocations of the registered error callback. -/
structure ErrorHandleState where
  is_processing : Bool
  is_playing : Bool
  errorCalls : List String
deriving DecidableEq

/-- Embedding of the `"error"` branch of `_handle_message`, with an error
callback registered (as the orchestrator always does via `set_callbacks`): if
`"no active response found" in error_msg.lower()` the callback is skipped and
both flags are cleared; otherwise both flags are cleared and the callback is
invoked with the message. -/
def handle_error_event (error_msg : String) (st : ErrorHandleState) : ErrorHandleState :=
  if listContainsSub benignMarker (pyLower error_msg.data) then
    { st with is_processing := false, is_playing := false }
  else
    { is_processing := false
      is_playing := false
      errorCalls := st.errorCalls ++ [error_msg] }

/-! ### RealtimeProtocolSession: connect retries (`realtime_client.py`,
`connect`) -/

/-- Observable outcome of `connect()`: the returned boolean, how many
`websockets.connect` attempts were made, the final `is_connected` flag, the
error-callback invocations, whether the `_listen_for_messages` task was
spawned, and how many `asyncio.sleep(2)` delays ran. -/
structure ConnectResult where
  returned : Bool
  attempts : ℕ
  is_connected : Bool
  errorCalls : List String
  listenTaskSpawned : Bool
  sleepCalls : ℕ
deriving DecidableEq

/-- The retry loop of `connect()` over an oracle `succ` telling whether the
`attempt`-th `websockets.connect` succeeds: on success set `is_connected`,
spawn the listener and return `True`; on failure sleep 2 s and try again; when
`max_retries` attempts are exhausted clear `is_connected`, invoke the error
callback and return `False`. -/
def connectLoop (succ : ℕ → Bool) : ℕ → ℕ → ConnectResult
  | attempt, 0 =>
    { returned := false
      attempts := attempt
      is_connected := false
      errorCalls := ["Connection failed after retries."]
      listenTaskSpawned := false
      sleepCalls := attempt }
  | attempt, fuel + 1 =>
    if succ attempt then
      { returned := true
        attempts := attempt + 1
        is_connected := true
        errorCalls := []
        listenTaskSpawned := true
        sleepCalls := attempt }
    else connectLoop succ (attempt + 1) fuel

/-- Embedding of `connect()`: `max_retries = 3`, starting at attempt 0. -/
def connect (succ : ℕ → Bool) : ConnectResult :=
  connectLoop succ 0 3

/-! ### RealtimeProtocolSession: persona voice profiles (`realtime_client.py`,
`npc_voices`, `get_npc_voice_config`, `set_npc_voice_config`) -/

/-- One entry of the `npc_voices` dictionary. -/
structure VoiceProfile where
  voice : String
  instructions : String
  sample : String
deriving DecidableEq

/-- The `"HR"` profile built in `OpenAIRealtimeClient.__init__`. -/
def hrProfile : VoiceProfile :=
  { voice := "alloy"
    instructions := "You are Sarah Chen, HR Director at Venture Builder AI. \n                Speak in a warm, professional tone. Keep responses conversational and helpful.\n                Be empathetic and supportive in your interactions."
    sample := "Welcome to Venture Builder AI! How can I help you today?" }

/-- The `"CEO"` profile built in `OpenAIRealtimeClient.__init__`. -/
def ceoProfile : VoiceProfile :=
  { voice := "echo"
    instructions := "You are Alex Rivera, CEO of Venture Builder AI. \n                Speak with authority, vision, and a touch of inspiration. \n                Be confident and forward-thinking in your responses."
    sample := "I'm Alex Rivera, CEO. Let's build the future together!" }

/-- The `"Engineer"` profile built in `OpenAIRealtimeClient.__init__`. -/
def engineerProfile : VoiceProfile :=
  { voice := "fable"
    instructions := "You are Maya Patel, Lead Engineer at Venture Builder AI. \n                Speak with technical expertise and enthusiasm. Be precise and helpful with technical questions.\n                Show passion for innovation and problem-solving."
    sample := "Hi! I'm Maya, your technical lead. What can I help you build today?" }

/-- The persona map as an insertion-ordered association list (the Python dict
of `__init__`). -/
def npc_voices_init : List (String × VoiceProfile) :=
  [("HR", hrProfile), ("CEO", ceoProfile), ("Engineer", engineerProfile)]

/-- Python `dict` lookup on the association list. -/
def dictGet (m : List (String × VoiceProfile)) (k : String) : Option VoiceProfile :=
  match m.find? (fun e => e.1 == k) with
  | some e => some e.2
  | none => none

/-- Embedding of `get_npc_voice_config`:
`self.npc_voices.get(npc_name, self.npc_voices["HR"])`.  The eager default
`self.npc_voices["HR"]` raises `KeyError` when `"HR"` is absent, modelled by
`none`; with `"HR"` present the result is the stored profile for `npc_name`
or the `"HR"` profile as fallback. -/
def get_npc_voice_config (m : List (String × VoiceProfile)) (npc_name : String) :
    Option VoiceProfile :=
  match dictGet m "HR" with
  | none => none
  | some hr => some ((dictGet m npc_name).getD hr)

/-- Embedding of `set_npc_voice_config`: Python dict assignment — replace the
entry if the key exists, otherwise append it. -/
def set_npc_voice_config (m : List (String × VoiceProfile)) (npc_name : String)
    (p : VoiceProfile) : List (String × VoiceProfile) :=
  if (dictGet m npc_name).isSome then
    m.map (fun e => if e.1 == npc_name then (npc_name, p) else e)
  else m ++ [(npc_name, p)]

/-! ## Helper lemmas -/

/-- Truncation toward zero agrees with the floor on nonnegative values, giving
an evaluation rule from a bracketing of the argument. -/
theorem ratTrunc_eq_of_nonneg (q : ℚ) (n : ℤ) (hn : 0 ≤ n) (h1 : (n : ℚ) ≤ q)
    (h2 : q < n + 1) : ratTrunc q = n := by
  have hq : 0 ≤ q := le_trans (by exact_mod_cast hn) h1
  rw [ratTrunc, if_pos hq]
  exact Int.floor_eq_iff.mpr ⟨h1, by exact_mod_cast h2⟩

/-- The int16 wrap is the identity on values already in range. -/
theorem toInt16_eq_self (z : ℤ) (h1 : -32768 ≤ z) (h2 : z ≤ 32767) : toInt16 z = z := by
  unfold toInt16
  omega

/-- Truncation toward zero never increases the absolute value. -/
theorem abs_ratTrunc_le (q : ℚ) : |(ratTrunc q : ℚ)| ≤ |q| := by
  rw [ratTrunc]
  by_cases hq : 0 ≤ q
  · rw [if_pos hq]
    have h0 : (0 : ℤ) ≤ ⌊q⌋ := Int.floor_nonneg.mpr hq
    have h1 : (⌊q⌋ : ℚ) ≤ q := Int.floor_le q
    rw [abs_of_nonneg hq, abs_of_nonneg (by exact_mod_cast h0)]
    exact h1
  · rw [if_neg hq]
    push_neg at hq
    have h0 : (0 : ℤ) ≤ ⌊-q⌋ := Int.floor_nonneg.mpr (by linarith)
    have h1 : (⌊-q⌋ : ℚ) ≤ -q := Int.floor_le (-q)
    rw [abs_of_neg hq]
    push_cast
    rw [abs_neg, abs_of_nonneg (by exact_mod_cast h0)]
    exact h1

/-- Halving before flooring loses at most one unit against flooring directly. -/
theorem floor_half_bound (z : ℚ) : |2 * ⌊z / 2⌋ - ⌊z⌋| ≤ 1 := by
  have ha1 : (⌊z / 2⌋ : ℚ) ≤ z / 2 := Int.floor_le (z / 2)
  have ha2 : z / 2 < ⌊z / 2⌋ + 1 := Int.lt_floor_add_one (z / 2)
  have hb1 : (⌊z⌋ : ℚ) ≤ z := Int.floor_le z
  have hb2 : z < ⌊z⌋ + 1 := Int.lt_floor_add_one z
  have h1 : 2 * ⌊z / 2⌋ ≤ ⌊z⌋ := by
    have : (2 * ⌊z / 2⌋ : ℚ) ≤ z := by linarith
    exact Int.le_floor.mpr (by exact_mod_cast this)
  have h2 : ⌊z⌋ ≤ 2 * ⌊z / 2⌋ + 1 := by
    have hz : z < 2 * (⌊z / 2⌋ : ℚ) + 2 := by linarith
    have : (⌊z⌋ : ℚ) < 2 * (⌊z / 2⌋ : ℚ) + 2 := lt_of_le_of_lt hb1 hz
    have hlt : ⌊z⌋ < 2 * ⌊z / 2⌋ + 2 := by exact_mod_cast this
    omega
  rw [abs_le]
  omega

/-- Halving before truncating toward zero loses at most one unit against
truncating directly. -/
theorem ratTrunc_half_bound (y : ℚ) : |2 * ratTrunc (y / 2) - ratTrunc y| ≤ 1 := by
  by_cases hy : 0 ≤ y
  · have hy2 : 0 ≤ y / 2 := by linarith
    rw [ratTrunc, ratTrunc, if_pos hy, if_pos hy2]
    exact floor_half_bound y
  · push_neg at hy
    have hy2 : ¬ 0 ≤ y / 2 := by intro h; exact absurd (by linarith : 0 ≤ y) (not_le.mpr hy)
    rw [ratTrunc, ratTrunc, if_neg (not_le.mpr hy), if_neg hy2]
    have hrw : -(y / 2) = -y / 2 := by ring
    rw [hrw]
    have := floor_half_bound (-y)
    have hform : 2 * -⌊-y / 2⌋ - -⌊-y⌋ = -(2 * ⌊-y / 2⌋ - ⌊-y⌋) := by ring
    rw [hform, abs_neg]
    exact this

/-- The input queue after a run of capture callbacks is the initial queue plus
every produced frame, in order. -/
theorem capture_foldl_queue (vol thr : ℚ) (frames : List (List ℚ)) :
    ∀ q : List (List ℤ),
      frames.foldl (fun q f => (capture_audio_callback vol thr q f).queueAfter) q
        = q ++ frames.map (captureFrame vol) := by
  induction frames with
  | nil => intro q; simp
  | cons f fs ih =>
    intro q
    simp only [List.foldl_cons, List.map_cons]
    rw [ih]
    simp [capture_audio_callback]

/-! ## Claim C4 -/

/-- C4 counterexample: the capture-side input queue is not capped by any fixed
bound — for every candidate cap there is a run of callbacks whose queue depth
exceeds it, since each enqueue grows the queue. -/
theorem input_queue_not_bounded :
    ¬ ∃ cap : ℕ, ∀ frames : List (List ℚ),
      (input_queue_after 1 (1 / 100) frames).length ≤ cap := by
  rintro ⟨cap, h⟩
  have h2 := h (List.replicate (cap + 1) [])
  rw [input_queue_after, capture_foldl_queue] at h2
  simp at h2

/-- C4 (amended): the capture-side input queue is unbounded — after any
sequence of capture callbacks it holds exactly the PCM frame of every callback
in arrival order, its depth equals the number of callbacks, no frame is ever
dropped, and no Backpressure condition exists in the code. -/
theorem input_queue_unbounded_append (vol thr : ℚ) (frames : List (List ℚ)) :
    input_queue_after vol thr frames = frames.map (captureFrame vol)
    ∧ (input_queue_after vol thr frames).length = frames.length := by
  have h := capture_foldl_queue vol thr frames []
  rw [input_queue_after, h]
  simp

/-! ## Claim C5 -/

/-- C5 counterexample: with 3 buffered samples and a 4-sample frame request,
the playback callback outputs an entire frame of silence — it does not play
the 3 buffered samples followed by one zero for the shortfall. -/
theorem underfilled_playback_whole_frame_silence :
    (playback_audio_callback 1 4 ⟨[100, 200, 300], []⟩).outdata = List.replicate 4 0
    ∧ (playback_audio_callback 1 4 ⟨[100, 200, 300], []⟩).outdata ≠
        [(100 : ℚ) / 32767, 200 / 32767, 300 / 32767, 0] := by
  have h : (playback_audio_callback 1 4 ⟨[100, 200, 300], []⟩).outdata
      = List.replicate 4 0 := by decide
  refine ⟨h, ?_⟩
  rw [h]
  intro heq
  simp [List.replicate] at heq
  obtain ⟨h1, -⟩ := heq
  norm_num at h1

/-- C5 (amended): whenever the pull phase leaves fewer buffered samples than
the requested frame size, the playback callback emits a full frame of silence,
keeps the buffered samples for the next callback, and returns (total, no
blocking or raising). -/
theorem underfilled_playback_emits_silence (outVol : ℚ) (frames : ℕ) (st : PlaybackState)
    (h : (pullChunks frames st.output_queue st.buffer).1.length < frames) :
    playback_audio_callback outVol frames st =
      { outdata := List.replicate frames 0
        buffer := (pullChunks frames st.output_queue st.buffer).1
        queue := (pullChunks frames st.output_queue st.buffer).2 } := by
  rw [playback_audio_callback, if_neg (by omega)]

/-- C5 witness: concrete under-filled state. -/
theorem underfilled_playback_emits_silence_witness :
    (pullChunks 4 ([] : List (List ℤ)) [100, 200, 300]).1.length < 4
    ∧ playback_audio_callback 1 4 ⟨[100, 200, 300], []⟩ =
        { outdata := List.replicate 4 0, buffer := [100, 200, 300], queue := [] } := by
  refine ⟨by decide, ?_⟩
  have h := underfilled_playback_emits_silence 1 4 ⟨[100, 200, 300], []⟩ (by decide)
  rw [h]
  decide

/-! ## Claim C8 -/

/-- C8: `set_volumes` clamps each supplied value into [0, 1], leaves an
omitted value unchanged, and preserves the in-range invariant of the stored
volumes (which holds at construction, where both are 1.0). -/
theorem set_volumes_clamps (st : Volumes) (iv ov : Option ℚ) :
    (iv = none → (set_volumes st iv ov).input_volume = st.input_volume)
    ∧ (∀ v, iv = some v → (set_volumes st iv ov).input_volume = max 0 (min 1 v)
        ∧ 0 ≤ (set_volumes st iv ov).input_volume
        ∧ (set_volumes st iv ov).input_volume ≤ 1)
    ∧ (ov = none → (set_volumes st iv ov).output_volume = st.output_volume)
    ∧ (∀ v, ov = some v → (set_volumes st iv ov).output_volume = max 0 (min 1 v)
        ∧ 0 ≤ (set_volumes st iv ov).output_volume
        ∧ (set_volumes st iv ov).output_volume ≤ 1)
    ∧ (0 ≤ st.input_volume → st.input_volume ≤ 1 →
       0 ≤ st.output_volume → st.output_volume ≤ 1 →
        0 ≤ (set_volumes st iv ov).input_volume
        ∧ (set_volumes st iv ov).input_volume ≤ 1
        ∧ 0 ≤ (set_volumes st iv ov).output_volume
        ∧ (set_volumes st iv ov).output_volume ≤ 1) := by
  have hlo : ∀ v : ℚ, 0 ≤ max 0 (min 1 v) := fun v => le_max_left 0 _
  have hhi : ∀ v : ℚ, max 0 (min 1 v) ≤ 1 :=
    fun v => max_le (by norm_num) (min_le_left 1 v)
  rcases iv with - | v₁ <;> rcases ov with - | v₂ <;>
    refine ⟨?_, ?_, ?_, ?_, ?_⟩ <;>
    simp [set_volumes, hlo, hhi] <;>
    tauto

/-- C8 witness: out-of-range arguments −1 and 2 are clamped to 0 and 1. -/
theorem set_volumes_clamps_witness :
    (set_volumes ⟨1, 1⟩ (some (-1)) (some 2)).input_volume = 0
    ∧ (set_volumes ⟨1, 1⟩ (some (-1)) (some 2)).output_volume = 1 := by
  obtain ⟨-, h2, -, h4, -⟩ := set_volumes_clamps ⟨1, 1⟩ (some (-1)) (some 2)
  obtain ⟨hi, -, -⟩ := h2 (-1) rfl
  obtain ⟨ho, -, -⟩ := h4 2 rfl
  rw [hi, ho]
  norm_num

/-! ## Claim C9 -/

/-- C9: `stop_recording` and `stop_playback` are idempotent, and each is a
no-op (state unchanged, nothing raised) when the corresponding stream is not
running. -/
theorem stop_idempotent_noop (st : AMState) :
    stop_recording (stop_recording st) = stop_recording st
    ∧ stop_playback (stop_playback st) = stop_playback st
    ∧ (st.is_recording = false → stop_recording st = st)
    ∧ (st.is_playing = false → stop_playback st = st) := by
  refine ⟨?_, ?_, ?_, ?_⟩
  · by_cases h : st.is_recording = false <;> simp [stop_recording, h]
  · by_cases h : st.is_playing = false <;> simp [stop_playback, h]
  · intro h; simp [stop_recording, h]
  · intro h; simp [stop_playback, h]

/-- C9 witness: a stopped engine state is left untouched by both operations,
and stopping twice from a running state equals stopping once. -/
theorem stop_idempotent_noop_witness :
    stop_recording ⟨false, false, false, false, false⟩ = ⟨false, false, false, false, false⟩
    ∧ stop_playback ⟨false, false, false, false, false⟩ = ⟨false, false, false, false, false⟩
    ∧ stop_recording (stop_recording ⟨true, true, true, false, true⟩)
        = stop_recording ⟨true, true, true, false, true⟩ :=
  ⟨(stop_idempotent_noop _).2.2.1 rfl,
   (stop_idempotent_noop _).2.2.2 rfl,
   (stop_idempotent_noop ⟨true, true, true, false, true⟩).1⟩

/-- A prefix match of a lowercase-invariant pattern survives lowercasing of
the searched text. -/
theorem listIsPrefOf_map_toLower (pat : List Char) :
    ∀ s : List Char, pyLower pat = pat → listIsPrefOf pat s = true →
      listIsPrefOf pat (pyLower s) = true := by
  induction pat with
  | nil => intro s _ _; simp [listIsPrefOf]
  | cons a as ih =>
    intro s hpat h
    cases s with
    | nil => simp [listIsPrefOf] at h
    | cons b bs =>
      simp only [listIsPrefOf, Bool.and_eq_true, beq_iff_eq] at h
      obtain ⟨hab, htail⟩ := h
      simp only [pyLower, List.map_cons, List.cons.injEq] at hpat
      obtain ⟨ha, has⟩ := hpat
      subst hab
      simp only [pyLower, List.map_cons, listIsPrefOf, Bool.and_eq_true, beq_iff_eq]
      refine ⟨by rw [ha], ?_⟩
      have := ih bs (by simpa [pyLower] using has) htail
      simpa [pyLower] using this

/-- Substring containment as an existential split of the searched text. -/
theorem listContainsSub_iff (pat : List Char) :
    ∀ s : List Char, listContainsSub pat s = true ↔
      ∃ u v, s = u ++ v ∧ listIsPrefOf pat v = true := by
  intro s
  induction s with
  | nil =>
    simp only [listContainsSub]
    constructor
    · intro h; exact ⟨[], [], rfl, h⟩
    · rintro ⟨u, v, huv, hv⟩
      obtain ⟨rfl, rfl⟩ := List.append_eq_nil.mp huv.symm
      exact hv
  | cons c rest ih =>
    simp only [listContainsSub, Bool.or_eq_true]
    constructor
    · rintro (h | h)
      · exact ⟨[], c :: rest, rfl, h⟩
      · obtain ⟨u, v, rfl, hv⟩ := ih.mp h
        exact ⟨c :: u, v, rfl, hv⟩
    · rintro ⟨u, v, huv, hv⟩
      cases u with
      | nil =>
        left
        rw [List.nil_append] at huv
        exact huv.symm ▸ hv
      | cons x u =>
        right
        simp only [List.cons_append, List.cons.injEq] at huv
        exact ih.mpr ⟨u, v, huv.2, hv⟩

/-- Containment of a lowercase-invariant pattern survives lowercasing of the
searched text. -/
theorem listContainsSub_lower_mono (pat s : List Char) (hpat : pyLower pat = pat)
    (h : listContainsSub pat s = true) : listContainsSub pat (pyLower s) = true := by
  rw [listContainsSub_iff] at h ⊢
  obtain ⟨u, v, rfl, hv⟩ := h
  exact ⟨pyLower u, pyLower v, by simp [pyLower], listIsPrefOf_map_toLower pat v hpat hv⟩

/-! ## Claim C2 -/

/-- C2 counterexample: the message `"No active response found"` does not
contain the substring `"no active response found"` literally — by the claim it
is an "other" error whose callback must fire — yet the session suppresses the
callback (the branch lowercases the message first). -/
theorem uppercase_benign_message_suppressed :
    listContainsSub benignMarker ("No active response found".data) = false
    ∧ (handle_error_event "No active response found" ⟨true, true, []⟩).errorCalls = [] := by
  constructor
  · decide
  · decide

/-- C2 (amended): for every inbound error event whose message
case-insensitively contains "no active response found" (in particular whenever
it contains it literally), the session does not invoke the registered error
callback but still clears `isProcessing` and `isPlaying`; every error event
whose lowercased message does not contain the marker clears both flags and
invokes the callback with the message. -/
theorem error_event_dispatch (error_msg : String) (st : ErrorHandleState) :
    (handle_error_event error_msg st).is_processing = false
    ∧ (handle_error_event error_msg st).is_playing = false
    ∧ (listContainsSub benignMarker (pyLower error_msg.data) = true →
        (handle_error_event error_msg st).errorCalls = st.errorCalls)
    ∧ (listContainsSub benignMarker (pyLower error_msg.data) = false →
        (handle_error_event error_msg st).errorCalls = st.errorCalls ++ [error_msg])
    ∧ (listContainsSub benignMarker error_msg.data = true →
        (handle_error_event error_msg st).errorCalls = st.errorCalls) := by
  by_cases hc : listContainsSub benignMarker (pyLower error_msg.data) = true
  · refine ⟨?_, ?_, ?_, ?_, ?_⟩ <;> simp [handle_error_event, hc]
  · have hc' : listContainsSub benignMarker (pyLower error_msg.data) = false :=
      Bool.not_eq_true _ ▸ Bool.of_not_eq_true hc
    refine ⟨?_, ?_, ?_, ?_, ?_⟩
    · simp [handle_error_event, hc']
    · simp [handle_error_event, hc']
    · intro h; simp [h] at hc'
    · intro _; simp [handle_error_event, hc']
    · intro hlit
      exact absurd (listContainsSub_lower_mono benignMarker error_msg.data (by decide) hlit)
        (by simp [hc'])

/-- C2 witness: the benign message clears both flags without any callback
invocation. -/
theorem error_event_dispatch_witness :
    listContainsSub benignMarker (pyLower "no active response found".data) = true
    ∧ (handle_error_event "no active response found" ⟨true, true, []⟩).is_processing = false
    ∧ (handle_error_event "no active response found" ⟨true, true, []⟩).errorCalls = [] := by
  refine ⟨by decide, (error_event_dispatch _ _).1, ?_⟩
  have h := (error_event_dispatch "no active response found" ⟨true, true, []⟩).2.2.1 (by decide)
  simpa using h

/-! ## Claim C6 -/

/-- C6: when all three transport attempts fail, `connect()` makes exactly 3
attempts with a fixed 2-second sleep after each failure, returns `False`
without raising, invokes the error callback once with the connection-failed
message, spawns no receive loop, and leaves `is_connected` false; when the
first success happens at attempt `k < 3`, it returns `True`, sets
`is_connected`, and spawns the receive-loop task. -/
theorem connect_retry_semantics (succ : ℕ → Bool) :
    ((∀ i, i < 3 → succ i = false) →
      connect succ = ⟨false, 3, false, ["Connection failed after retries."], false, 3⟩)
    ∧ (∀ k, k < 3 → (∀ i, i < k → succ i = false) → succ k = true →
      connect succ = ⟨true, k + 1, true, [], true, k⟩) := by
  constructor
  · intro h
    simp [connect, connectLoop, h 0 (by omega), h 1 (by omega), h 2 (by omega)]
  · intro k hk h hsucc
    interval_cases k
    · simp [connect, connectLoop, hsucc]
    · simp [connect, connectLoop, h 0 (by omega), hsucc]
    · simp [connect, connectLoop, h 0 (by omega), h 1 (by omega), hsucc]

/-- C6 witness: an always-failing transport and an immediately-succeeding
transport. -/
theorem connect_retry_semantics_witness :
    connect (fun _ => false) = ⟨false, 3, false, ["Connection failed after retries."], false, 3⟩
    ∧ connect (fun _ => true) = ⟨true, 1, true, [], true, 0⟩ :=
  ⟨(connect_retry_semantics _).1 (fun _ _ => rfl),
   (connect_retry_semantics _).2 0 (by omega) (fun i h => absurd h (Nat.not_lt_zero i)) rfl⟩

/-! ## Claim C10 -/

/-- C10: `get_npc_voice_config` never fails on the constructed persona map —
an unregistered persona id falls back to the `"HR"` profile, a registered one
(in any map still containing `"HR"`, an invariant of the update operation)
yields exactly its stored profile, and the result is always present. -/
theorem voice_config_fallback :
    (∀ name, dictGet npc_voices_init name = none →
        get_npc_voice_config npc_voices_init name = some hrProfile)
    ∧ (∀ m name p, (dictGet m "HR").isSome = true → dictGet m name = some p →
        get_npc_voice_config m name = some p)
    ∧ (∀ name, (get_npc_voice_config npc_voices_init name).isSome = true) := by
  have hhr : dictGet npc_voices_init "HR" = some hrProfile := rfl
  refine ⟨?_, ?_, ?_⟩
  · intro name h
    simp [get_npc_voice_config, hhr, h]
  · intro m name p hsome hname
    obtain ⟨hr, hhr'⟩ := Option.isSome_iff_exists.mp hsome
    simp [get_npc_voice_config, hhr', hname]
  · intro name
    simp [get_npc_voice_config, hhr]

/-- C10 witness: an unknown persona id resolves to the HR profile, a known one
to its own stored profile. -/
theorem voice_config_fallback_witness :
    get_npc_voice_config npc_voices_init "Wizard" = some hrProfile
    ∧ get_npc_voice_config npc_voices_init "CEO" = some ceoProfile :=
  ⟨voice_config_fallback.1 "Wizard" rfl,
   voice_config_fallback.2.1 npc_voices_init "CEO" ceoProfile rfl rfl⟩

/-! ## Claim C3 -/

/-- C3: in any loop iteration whose accumulated buffer concatenates to a
zero-length sequence (with the commit threshold reached), the loop issues no
network call — neither `send_audio_chunk` nor `commit_audio_buffer` — and
resets the accumulator to empty buffer and zero duration. -/
theorem empty_drain_skips_network (st : AccState) (frame : List ℚ)
    (hd : min_commit_duration ≤ st.accumulated_duration + chunk_duration)
    (hj : (st.accumulated_audio ++ [frame]).flatten = []) :
    processFrame st frame = ⟨[], 0, st.events⟩ := by
  simp only [processFrame]
  rw [if_pos hd, hj]
  rfl

/-- C3 witness: twelve-frames-worth of accumulated duration with an empty
concatenation skips the network call and resets. -/
theorem empty_drain_skips_network_witness :
    min_commit_duration ≤ (⟨[], 1/2, []⟩ : AccState).accumulated_duration + chunk_duration
    ∧ processFrame ⟨[], 1/2, []⟩ [] = ⟨[], 0, []⟩ := by
  have hd : min_commit_duration ≤ (⟨[], 1/2, []⟩ : AccState).accumulated_duration + chunk_duration := by
    norm_num [min_commit_duration, chunk_duration]
  refine ⟨hd, ?_⟩
  simpa using empty_drain_skips_network ⟨[], 1/2, []⟩ [] hd rfl

/-! ## Claim C7 -/

/-- A capture sample with an in-range input and a volume in [0, 1] stays in
the int16 range, so the conversion is pure truncation with no wrap. -/
theorem captureSample_eq_ratTrunc (vol x : ℚ) (hv0 : 0 ≤ vol) (hv1 : vol ≤ 1)
    (hx : |x| ≤ 1) : captureSample vol x = ratTrunc (vol * x * 32767) := by
  have habs : |vol * x * 32767| ≤ 32767 := by
    rw [abs_mul, abs_mul]
    have hvabs : |vol| ≤ 1 := abs_le.mpr ⟨by linarith, hv1⟩
    have h1 : |vol| * |x| ≤ 1 := by
      nlinarith [abs_nonneg vol, abs_nonneg x]
    have h2 : |(32767 : ℚ)| = 32767 := by norm_num
    nlinarith
  have h3 : |ratTrunc (vol * x * 32767)| ≤ 32767 := by
    have h2 := le_trans (abs_ratTrunc_le (vol * x * 32767)) habs
    exact_mod_cast h2
  rw [abs_le] at h3
  rw [captureSample]
  exact toInt16_eq_self _ (by omega) h3.2

/-- C7 counterexample: at raw sample 1/8192 the volume-1.0 PCM value is 3 and
the volume-0.5 PCM value is 1, which is not exactly 0.5 × 3 — truncation after
scaling breaks exact halving on odd PCM values. -/
theorem half_volume_not_exact_half_pcm :
    ((captureSample (1/2) ((1:ℚ)/8192) : ℤ) : ℚ)
      ≠ (1/2 : ℚ) * ((captureSample 1 ((1:ℚ)/8192) : ℤ) : ℚ) := by
  have e1 : captureSample 1 ((1:ℚ)/8192) = 3 := by
    have h : captureSample 1 ((1:ℚ)/8192) = toInt16 (ratTrunc ((1:ℚ) * (1/8192) * 32767)) := rfl
    have harg : (1:ℚ) * (1/8192) * 32767 = 32767/8192 := by norm_num
    rw [h, harg, ratTrunc_eq_of_nonneg _ 3 (by norm_num) (by norm_num) (by norm_num)]
    decide
  have e2 : captureSample (1/2) ((1:ℚ)/8192) = 1 := by
    have h : captureSample (1/2) ((1:ℚ)/8192) = toInt16 (ratTrunc ((1/2:ℚ) * (1/8192) * 32767)) := rfl
    have harg : (1/2:ℚ) * (1/8192) * 32767 = 32767/16384 := by norm_num
    rw [h, harg, ratTrunc_eq_of_nonneg _ 1 (by norm_num) (by norm_num) (by norm_num)]
    decide
  rw [e1, e2]
  norm_num

/-- C7 (amended): with input volume 0.5, every in-range captured sample is
converted to the truncation toward zero of half the pre-conversion value
0.5·x·32767 — scaling happens before fixed-point conversion — and therefore
agrees with half the volume-1.0 PCM sample only up to the one-unit truncation
error (|2·pcm₀.₅ − pcm₁| ≤ 1), not exactly. -/
theorem half_volume_truncated_scaling (frame : List ℚ) (hb : ∀ x ∈ frame, |x| ≤ 1) :
    captureFrame (1/2) frame = frame.map (fun x => ratTrunc (x * 32767 / 2))
    ∧ ∀ x ∈ frame, |2 * captureSample (1/2) x - captureSample 1 x| ≤ 1 := by
  constructor
  · rw [captureFrame]
    apply List.map_congr_left
    intro x hx
    rw [captureSample_eq_ratTrunc (1/2) x (by norm_num) (by norm_num) (hb x hx)]
    congr 1
    ring
  · intro x hx
    rw [captureSample_eq_ratTrunc (1/2) x (by norm_num) (by norm_num) (hb x hx),
        captureSample_eq_ratTrunc 1 x (by norm_num) (by norm_num) (hb x hx)]
    have h12 : (1/2 : ℚ) * x * 32767 = (x * 32767) / 2 := by ring
    have h1 : (1 : ℚ) * x * 32767 = x * 32767 := by ring
    rw [h12, h1]
    exact ratTrunc_half_bound (x * 32767)

/-- C7 witness: the singleton frame [1/8192] is in range and its volume-0.5
conversion evaluates to the truncated half, namely 1. -/
theorem half_volume_truncated_scaling_witness :
    (∀ x ∈ [(1:ℚ)/8192], |x| ≤ 1)
    ∧ captureFrame (1/2) [(1:ℚ)/8192] = [ratTrunc ((1:ℚ)/8192 * 32767 / 2)]
    ∧ ratTrunc ((1:ℚ)/8192 * 32767 / 2) = 1 := by
  have hb : ∀ x ∈ [(1:ℚ)/8192], |x| ≤ 1 := by
    intro x hx
    simp only [List.mem_singleton] at hx
    rw [hx, abs_of_nonneg (by norm_num)]
    norm_num
  refine ⟨hb, ?_, ?_⟩
  · simpa using (half_volume_truncated_scaling [(1:ℚ)/8192] hb).1
  · have harg : (1:ℚ)/8192 * 32767 / 2 = 32767/16384 := by norm_num
    rw [harg]
    exact ratTrunc_eq_of_nonneg _ 1 (by norm_num) (by norm_num) (by norm_num)

/-! ## Claim C1 -/

/-- The commit condition of the accumulation loop is reached exactly when 12
or more frame durations have been accumulated (12 · 1024/24000 = 0.512 s is
the first multiple of the frame duration at or above 0.5 s). -/
theorem commit_threshold_iff (n : ℕ) :
    min_commit_duration ≤ (n : ℚ) * chunk_duration ↔ 12 ≤ n := by
  rw [min_commit_duration, chunk_duration]
  constructor
  · intro h
    by_contra hn
    push_neg at hn
    have hq : (n : ℚ) ≤ 11 := by exact_mod_cast Nat.lt_succ_iff.mp hn
    linarith
  · intro h
    have hq : (12 : ℚ) ≤ (n : ℚ) := by exact_mod_cast h
    linarith

/-- Characterisation of a whole run of the accumulation loop starting from a
consistent state (duration = number of buffered frames × frame duration, fewer
than 12 buffered, all nonempty): over nonempty input frames the loop commits
exactly once every 12th frame, and the final buffered count is the remainder
mod 12. -/
theorem runAcc_spec (fs : List (List ℚ)) :
    ∀ (acc : List (List ℚ)) (ev : List NetEvent),
      (∀ f ∈ fs, f ≠ []) → (∀ f ∈ acc, f ≠ []) → acc.length < 12 →
      commitCount (runAcc fs ⟨acc, (acc.length : ℚ) * chunk_duration, ev⟩).events
          = commitCount ev + (acc.length + fs.length) / 12
      ∧ (runAcc fs ⟨acc, (acc.length : ℚ) * chunk_duration, ev⟩).accumulated_audio.length
          = (acc.length + fs.length) % 12
      ∧ (runAcc fs ⟨acc, (acc.length : ℚ) * chunk_duration, ev⟩).accumulated_duration
          = (((acc.length + fs.length) % 12 : ℕ) : ℚ) * chunk_duration
      ∧ (∀ f ∈ (runAcc fs ⟨acc, (acc.length : ℚ) * chunk_duration, ev⟩).accumulated_audio,
          f ≠ []) := by
  induction fs with
  | nil =>
    intro acc ev _ hacc hlt
    have hmod : (acc.length + ([] : List (List ℚ)).length) % 12 = acc.length := by
      simp; omega
    refine ⟨?_, ?_, ?_, ?_⟩
    · simp only [runAcc, List.foldl_nil, List.length_nil]
      omega
    · simp only [runAcc, List.foldl_nil]
      rw [hmod]
    · simp only [runAcc, List.foldl_nil]
      rw [hmod]
    · simp only [runAcc, List.foldl_nil]
      exact hacc
  | cons f fs ih =>
    intro acc ev hfs hacc hlt
    have hf : f ≠ [] := hfs f (List.mem_cons_self f fs)
    have hfs' : ∀ g ∈ fs, g ≠ [] := fun g hg => hfs g (List.mem_cons_of_mem f hg)
    have hdur : (acc.length : ℚ) * chunk_duration + chunk_duration
        = ((acc.length + 1 : ℕ) : ℚ) * chunk_duration := by push_cast; ring
    by_cases h11 : acc.length = 11
    · have hcond : min_commit_duration ≤ (acc.length : ℚ) * chunk_duration + chunk_duration := by
        rw [hdur]
        exact (commit_threshold_iff _).mpr (by omega)
      have hne : ¬ ((acc ++ [f]).flatten.length = 0) := by
        intro h0
        have hnil : (acc ++ [f]).flatten = [] := List.length_eq_zero.mp h0
        exact hf ((List.flatten_eq_nil_iff.mp hnil) f (by simp))
      have hstep : processFrame ⟨acc, (acc.length : ℚ) * chunk_duration, ev⟩ f
          = ⟨[], (([] : List (List ℚ)).length : ℚ) * chunk_duration,
              ev ++ [NetEvent.sendChunk (toPCM16 ((acc ++ [f]).flatten)),
                     NetEvent.commitBuffer]⟩ := by
        simp only [processFrame]
        rw [if_pos hcond, if_neg hne]
        simp
      obtain ⟨ih1, ih2, ih3, ih4⟩ :=
        ih []
          (ev ++ [NetEvent.sendChunk (toPCM16 ((acc ++ [f]).flatten)), NetEvent.commitBuffer])
          hfs' (by simp) (by norm_num)
      have hev : commitCount
          (ev ++ [NetEvent.sendChunk (toPCM16 ((acc ++ [f]).flatten)), NetEvent.commitBuffer])
          = commitCount ev + 1 := by
        simp [commitCount, List.countP_append, List.countP_cons, isCommit]
      refine ⟨?_, ?_, ?_, ?_⟩
      · simp only [runAcc, List.foldl_cons] at *
        rw [hstep, ih1, hev]
        simp only [List.length_nil, List.length_cons]
        omega
      · simp only [runAcc, List.foldl_cons] at *
        rw [hstep, ih2]
        simp only [List.length_nil, List.length_cons]
        omega
      · simp only [runAcc, List.foldl_cons] at *
        rw [hstep, ih3]
        have : (([] : List (List ℚ)).length + fs.length) % 12
            = (acc.length + (fs.length + 1)) % 12 := by
          simp only [List.length_nil]
          omega
        rw [this]
        simp only [List.length_cons]
      · simp only [runAcc, List.foldl_cons] at *
        rw [hstep]
        exact ih4
    · have hcond : ¬ (min_commit_duration ≤ (acc.length : ℚ) * chunk_duration + chunk_duration) := by
        rw [hdur, commit_threshold_iff]
        omega
      have hstep : processFrame ⟨acc, (acc.length : ℚ) * chunk_duration, ev⟩ f
          = ⟨acc ++ [f], ((acc ++ [f]).length : ℚ) * chunk_duration, ev⟩ := by
        simp only [processFrame]
        rw [if_neg hcond, hdur]
        simp [List.length_append]
      have haccm : ∀ g ∈ acc ++ [f], g ≠ [] := by
        intro g hg
        rcases List.mem_append.mp hg with h | h
        · exact hacc g h
        · simp only [List.mem_singleton] at h
          rw [h]
          exact hf
      obtain ⟨ih1, ih2, ih3, ih4⟩ := ih (acc ++ [f]) ev hfs' haccm
        (by simp only [List.length_append, List.length_cons, List.length_nil]; omega)
      refine ⟨?_, ?_, ?_, ?_⟩
      · simp only [runAcc, List.foldl_cons] at *
        rw [hstep, ih1]
        simp only [List.length_append, List.length_cons, List.length_nil]
        omega
      · simp only [runAcc, List.foldl_cons] at *
        rw [hstep, ih2]
        simp only [List.length_append, List.length_cons, List.length_nil]
        omega
      · simp only [runAcc, List.foldl_cons] at *
        rw [hstep, ih3]
        have : ((acc ++ [f]).length + fs.length) % 12
            = (acc.length + (fs.length + 1)) % 12 := by
          simp only [List.length_append, List.length_cons, List.length_nil]
          omega
        rw [this]
        simp only [List.length_cons]
      · simp only [runAcc, List.foldl_cons] at *
        rw [hstep]
        exact ih4

/-- C1 counterexample: pushing 30 frames of 1024 samples through the
accumulation loop yields two `commit_audio_buffer()` calls (after the 12th and
24th frames), not exactly one. -/
theorem thirty_frames_two_commits_not_one :
    commitCount (runAcc (List.replicate 30 (List.replicate 1024 (1:ℚ))) initAcc).events ≠ 1 := by
  have hne : ∀ f ∈ List.replicate 30 (List.replicate 1024 (1:ℚ)), f ≠ [] := by
    intro f hf
    have h1024 : f.length = 1024 := by
      rw [List.eq_of_mem_replicate hf, List.length_replicate]
    intro h
    rw [h] at h1024
    simp at h1024
  obtain ⟨h1, -, -, -⟩ :=
    runAcc_spec (List.replicate 30 (List.replicate 1024 (1:ℚ))) [] [] hne (by simp) (by norm_num)
  have hinit : (⟨[], (([] : List (List ℚ)).length : ℚ) * chunk_duration, []⟩ : AccState)
      = initAcc := by simp [initAcc]
  rw [hinit] at h1
  rw [h1]
  simp only [commitCount, List.countP_nil, List.length_nil, List.length_replicate]
  omega

/-- C1 (amended): for every run of the voice-mode frame-accumulation loop in
which 30 frames of 1024 samples at 24 kHz (≈1.28 s, all accepted by the RMS
gate) are pushed, exactly two `commit_audio_buffer()` calls are made — one
each time the accumulated duration first reaches/crosses the 500 ms minimum,
i.e. after the 12th frame (0.512 s) and after the 24th, not one per frame —
and each commit resets the accumulated buffer and duration to empty/zero. -/
theorem voice_loop_thirty_frames (frames : List (List ℚ)) (h30 : frames.length = 30)
    (hlen : ∀ f ∈ frames, f.length = 1024) :
    commitCount (runAcc frames initAcc).events = 2
    ∧ commitCount (runAcc (frames.take 11) initAcc).events = 0
    ∧ commitCount (runAcc (frames.take 12) initAcc).events = 1
    ∧ (runAcc (frames.take 12) initAcc).accumulated_audio = []
    ∧ (runAcc (frames.take 12) initAcc).accumulated_duration = 0 := by
  have hne : ∀ f ∈ frames, f ≠ [] := by
    intro f hf h
    have hl := hlen f hf
    rw [h] at hl
    simp at hl
  have hinit : initAcc
      = (⟨[], (([] : List (List ℚ)).length : ℚ) * chunk_duration, []⟩ : AccState) := by
    simp [initAcc]
  have hne11 : ∀ f ∈ frames.take 11, f ≠ [] := fun f hf => hne f (List.mem_of_mem_take hf)
  have hne12 : ∀ f ∈ frames.take 12, f ≠ [] := fun f hf => hne f (List.mem_of_mem_take hf)
  obtain ⟨h1, -, -, -⟩ := runAcc_spec frames [] [] hne (by simp) (by norm_num)
  obtain ⟨h2, -, -, -⟩ := runAcc_spec (frames.take 11) [] [] hne11 (by simp) (by norm_num)
  obtain ⟨h3, h4, h5, -⟩ := runAcc_spec (frames.take 12) [] [] hne12 (by simp) (by norm_num)
  have l11 : (frames.take 11).length = 11 := by simp [List.length_take, h30]
  have l12 : (frames.take 12).length = 12 := by simp [List.length_take, h30]
  rw [hinit]
  refine ⟨?_, ?_, ?_, ?_, ?_⟩
  · rw [h1, h30]
    simp [commitCount]
  · rw [h2, l11]
    simp [commitCount]
  · rw [h3, l12]
    simp [commitCount]
  · rw [← List.length_eq_zero, h4]
    simp [l12]
  · rw [h5]
    simp [l12]

/-- C1 witness: 30 concrete frames of 1024 constant samples produce exactly
two commits. -/
theorem voice_loop_thirty_frames_witness :
    (List.replicate 30 (List.replicate 1024 (1:ℚ))).length = 30
    ∧ commitCount (runAcc (List.replicate 30 (List.replicate 1024 (1:ℚ))) initAcc).events = 2 := by
  have hlen : ∀ f ∈ List.replicate 30 (List.replicate 1024 (1:ℚ)), f.length = 1024 := by
    intro f hf
    rw [List.eq_of_mem_replicate hf, List.length_replicate]
  refine ⟨List.length_replicate 30 _, ?_⟩
  exact (voice_loop_thirty_frames (List.replicate 30 (List.replicate 1024 (1:ℚ)))
    (List.length_replicate 30 _) hlen).1

end VbaiSpeech
